import Mathlib

/-!
# Verification of the proreader repository

Shallow embedding of the push-to-pull byte reader. The repository contains
four near-duplicate revisions of the same class:

* `src/unnamed/part_001` — the symbol-keyed `Reader` built directly on a
  `PassThrough` stream (`READ_CHUNK`, `UNREAD_CHUNK`, `READ_BUFFER`,
  `READ_TYPED_ARRAY`, `read`, scalar methods);
* `src/reader.js` and `src/unnamed/part_000` — event-queue based revisions;
* `src/proreader.js` — the `_data`-array revision (`_getChunk`, `_ungetChunk`,
  `_dispatch`, `_fillBuffer`, `_fillTypedArray`, scalar methods).

Bytes are modelled as `Nat` (the code only moves them; no arithmetic overflow
is involved), chunks as `List Nat`, the chunk queue as `List (List Nat)`.

## Model of `src/unnamed/part_001`

The `Reader` there owns a `PassThrough` stream `this[INPUT]`.  A `PassThrough`
is modelled as a FIFO of buffered chunks plus an `ended` flag (`end()` was
called).  `resume()` makes the stream emit its buffered chunks as `data`
events one by one, then a single `end` event once the buffer is drained and
`ended` is set; `unshift(c)` prepends `c` to the buffer; a chunk emitted while
no `data` listener is attached is discarded by the event loop.

The constructor attaches `onData` (which immediately pauses, so at most one
chunk is emitted per `READ_CHUNK`) and `onEnd` to the initial stream.
`UNREAD_CHUNK` may replace `this[INPUT]` with a brand-new ended stream; the
source attaches no listeners to that replacement, which the model records in
the `attached` flag.

All source input is modelled as already written to the stream, so a resumed
stream whose buffer is empty and not ended never produces anything; like a
stream with no listeners this leaves the pending promise unresolved forever
(outcome `hang`).
-/

/-- Byte order, as the strings `'LE'` / `'BE'` used throughout the source. -/
inductive Endian where
  | LE : Endian
  | BE : Endian
deriving DecidableEq

/-- State of the `part_001` `Reader`.

* `queue` — chunks buffered in the current `this[INPUT]` stream, front first
  (writes append at the back, `unshift` prepends at the front);
* `ended` — `end()` has been called on the current `this[INPUT]`;
* `attached` — the constructor's `onData`/`onEnd` listeners are attached to
  the current `this[INPUT]` (false after `onEnd` removed `onData`, and false
  for the replacement stream created by `UNREAD_CHUNK`);
* `bytesRead` — `this[BYTES_READ]`;
* `bytesUnread` — `this[BYTES_UNREAD]`, `none` standing for `undefined`.
  It is an `Int` because the source updates it with unchecked `+=`/`-=`. -/
structure RState where
  queue : List (List Nat)
  ended : Bool
  attached : Bool
  bytesRead : Nat
  bytesUnread : Option Int
deriving DecidableEq

/-- Outcome of one awaited `this[READ_CHUNK]()` call:
a delivered chunk, a `null` resolution (end of input), or a promise that is
never resolved (`hang`). -/
inductive ChunkOutcome where
  | chunk : List Nat → ChunkOutcome
  | endOfInput : ChunkOutcome
  | hang : ChunkOutcome
deriving DecidableEq

/-- The `onData` handler of `part_001` (lines 37–46): a zero-length chunk is
ignored; otherwise the stream is paused, `BYTES_READ` grows by the chunk
length, `BYTES_UNREAD` (when defined) shrinks by it, and the pending promise
is resolved with the chunk (second component). -/
def onData (s : RState) (chunk : List Nat) : RState × Option (List Nat) :=
  if chunk.isEmpty then (s, none)
  else ({ s with
            bytesRead := s.bytesRead + chunk.length,
            bytesUnread := s.bytesUnread.map (fun x => x - (chunk.length : Int)) },
        some chunk)

/-- What happens after `this[INPUT].resume()` with a pending promise: the
stream emits buffered chunks in FIFO order.  With the listeners attached, the
first nonempty chunk is delivered through `onData` (which pauses the stream);
empty chunks are ignored by `onData`'s guard.  Without listeners every chunk
is discarded.  On a drained buffer, an ended stream emits `end`: if `onEnd`
(lines 47–54) is attached it detaches `onData`, sets `BYTES_UNREAD` to 0 and
resolves `null`; otherwise — and likewise when the stream is not ended and no
further write ever comes — the promise stays pending forever. -/
def flowAux : List (List Nat) → Bool → Bool → Nat → Option Int → ChunkOutcome × RState
  | [], ended, attached, br, bu =>
      if ended && attached then
        (.endOfInput, ⟨[], ended, false, br, some 0⟩)
      else
        (.hang, ⟨[], ended, attached, br, bu⟩)
  | c :: rest, ended, attached, br, bu =>
      if c.isEmpty then
        flowAux rest ended attached br bu
      else if attached then
        (.chunk c,
         ⟨rest, ended, attached, br + c.length,
          bu.map (fun x => x - (c.length : Int))⟩)
      else
        flowAux rest ended attached br bu

/-- `this[READ_CHUNK]()` (lines 75–84): resolve `null` at once when
`BYTES_UNREAD === 0`, otherwise store the resolver and resume the stream. -/
def readChunk (s : RState) : ChunkOutcome × RState :=
  if s.bytesUnread = some 0 then (.endOfInput, s)
  else flowAux s.queue s.ended s.attached s.bytesRead s.bytesUnread

/-- `this[UNREAD_CHUNK](chunk)` (lines 86–95): no-op on a zero-length chunk;
when `BYTES_UNREAD !== 0` (which includes `undefined`) the chunk is unshifted
onto the front of the stream's buffer; otherwise `this[INPUT]` is replaced by
a fresh `PassThrough` that is ended with the chunk (no listeners are attached
to the replacement) and `BYTES_UNREAD` becomes the chunk length. -/
def unreadChunk (s : RState) (chunk : List Nat) : RState :=
  if chunk.isEmpty then s
  else if s.bytesUnread ≠ some 0 then { s with queue := chunk :: s.queue }
  else ⟨[chunk], true, false, s.bytesRead, some (chunk.length : Int)⟩

/-- Loop body of `this[READ_BUFFER]` (lines 97–108): while the destination is
not full, await a chunk (stop on `null`), copy as much of it as fits, and
unshift the unconsumed tail.  `acc` is the filled prefix of the destination,
so `acc.length` is the source's `offset`.

The first argument is loop fuel: every delivered chunk is nonempty (`onData`'s
guard), so the loop body runs at most `destLen + 1` times and
`readBuffer` supplies enough fuel for every execution; returning `none` means
the read never completes (a `hang` from `READ_CHUNK`). -/
def readBufLoop : Nat → Nat → List Nat → RState → Option (RState × List Nat)
  | 0, _, _, _ => none
  | fuel + 1, destLen, acc, s =>
      if acc.length < destLen then
        match readChunk s with
        | (.hang, _) => none
        | (.endOfInput, s') => some (s', acc)
        | (.chunk c, s') =>
            let len := min (destLen - acc.length) c.length
            if len = c.length then
              readBufLoop fuel destLen (acc ++ c) s'
            else
              readBufLoop fuel destLen (acc ++ c.take len)
                (unreadChunk s' (c.drop len))
      else some (s, acc)

/-- `this[READ_BUFFER](buffer, blockLength)` (lines 97–114).  `dest` is the
destination buffer's prior contents.  After the fill loop,
`blockCount = Math.floor(offset / blockLength)`, the bytes of the destination
between `blockCount * blockLength` and `offset` are pushed back with
`UNREAD_CHUNK`, and the call returns `blockCount` together with the final
state and final destination contents.  (`blockLength` is always ≥ 1 at the
call sites; JavaScript would produce `Infinity` for `blockLength = 0`, where
this model's `Nat` division yields 0.) -/
def readBuffer (s : RState) (dest : List Nat) (blockLength : Nat) :
    Option (RState × Nat × List Nat) :=
  match readBufLoop (dest.length + 1) dest.length [] s with
  | none => none
  | some (s', acc) =>
      let blockCount := acc.length / blockLength
      let excess := acc.drop (blockCount * blockLength)
      some (unreadChunk s' excess, blockCount, acc ++ dest.drop acc.length)

/-- Reverse each consecutive group of `k` bytes: the in-place
`readPart.swap16/swap32/swap64()` of the source.  Fuel-structured on the list
length (`l.drop k` shrinks the list whenever `k ≥ 1`). -/
def swapGroupsGo : Nat → Nat → List Nat → List Nat
  | _, _, [] => []
  | 0, _, l => l
  | fuel + 1, k, l =>
      if k = 0 then l
      else (l.take k).reverse ++ swapGroupsGo fuel k (l.drop k)

/-- Reverse each consecutive `k`-byte group of `l`. -/
def swapGroups (k : Nat) (l : List Nat) : List Nat :=
  swapGroupsGo l.length k l

/-- Little-endian positional value of a byte list. -/
def decodeLE : List Nat → Nat
  | [] => 0
  | b :: rest => b + 256 * decodeLE rest

/-- Value of an element whose in-memory bytes are `bytes` on a platform with
native byte order `native` (how `typedArray[0]` decodes its backing bytes). -/
def elemValue (native : Endian) (bytes : List Nat) : Nat :=
  match native with
  | .LE => decodeLE bytes
  | .BE => decodeLE bytes.reverse

/-- Bytes of element `i` of a typed region with `elemLen`-byte elements. -/
def elemBytes (buf : List Nat) (elemLen i : Nat) : List Nat :=
  (buf.drop (elemLen * i)).take elemLen

/-- `this[READ_TYPED_ARRAY](typedArray, blockLength, endianness)`
(lines 116–128): fill the byte region through `READ_BUFFER` with block size
`blockLength * elementLength`, then byte-swap the filled whole blocks in
place when the requested endianness differs from the native one.  `dest` is
the byte region's prior contents, `native` the platform byte order. -/
def readTypedArray (native : Endian) (s : RState) (dest : List Nat)
    (elemLen blockLength : Nat) (endianness : Endian) :
    Option (RState × Nat × List Nat) :=
  match readBuffer s dest (blockLength * elemLen) with
  | none => none
  | some (s', blockCount, buf) =>
      let readLen := blockCount * blockLength * elemLen
      let buf' :=
        if endianness ≠ native then
          swapGroups elemLen (buf.take readLen) ++ buf.drop readLen
        else buf
      some (s', blockCount, buf')

/-- Observable result of `reader.read(container, options)`. -/
inductive ReadResult where
  | part : Nat → ReadResult
  | success : ReadResult
  | endOfInput : List Nat → Nat → ReadResult
  | hang : ReadResult
deriving DecidableEq

/-- The `read` entry point as written in `src/reader.js` lines 129–146 (and
`part_000` lines 142–159), on a `Buffer` container: the fill is awaited, then
with `allowPart` the achieved `blockCount` is returned, otherwise
`blockCount * blockLength < container.length` raises `EndOfInput`
(`NotEnoughError`) carrying the partially filled container and the achieved
`blockCount`; on a full read the call resolves (with `undefined`). -/
def readEntryReaderJs (s : RState) (dest : List Nat) (blockLength : Nat)
    (allowPart : Bool) : ReadResult × RState × List Nat :=
  match readBuffer s dest blockLength with
  | none => (.hang, s, dest)
  | some (s', blockCount, buf) =>
      if allowPart then (.part blockCount, s', buf)
      else if blockCount * blockLength < dest.length then
        (.endOfInput buf blockCount, s', buf)
      else (.success, s', buf)

/-- The `read` entry point as written in `src/unnamed/part_001`
lines 130–150, on a `Buffer` container.  There the fill is started with

`let blockCount = await Buffer.isBuffer(container) ? this[READ_BUFFER](...) : this[READ_TYPED_ARRAY](...);`

and `await` binds tighter than the conditional, so `blockCount` is the chosen
*unawaited Promise*.  With `allowPart` the promise is returned and flattened
by the caller's `await`, which accidentally works; with `allowPart = false`,
`blockCount * blockLength` is `NaN`, `NaN < container.length` is `false`, and
the call resolves `undefined` immediately — `EndOfInput` is never thrown.
The fill itself still runs in the background; the state and buffer components
below are its eventual effect (unchanged when it never completes). -/
def readEntryPart001 (s : RState) (dest : List Nat) (blockLength : Nat)
    (allowPart : Bool) : ReadResult × RState × List Nat :=
  match readBuffer s dest blockLength with
  | none => if allowPart then (.hang, s, dest) else (.success, s, dest)
  | some (s', blockCount, buf) =>
      if allowPart then (.part blockCount, s', buf)
      else (.success, s', buf)

/-- Observable result of a scalar read such as `reader.readUInt16()`. -/
inductive ScalarResult where
  | val : Nat → ScalarResult
  | endOfInput : ScalarResult
  | hang : ScalarResult
deriving DecidableEq

/-- A `part_001` scalar read `readX({endianness})` (lines 182–193): a fresh
one-element typed array (zero-filled) is passed to `READ_TYPED_ARRAY` with
`blockLength = 1`; a zero block count raises `EndOfInput`, otherwise the
element value is returned. -/
def readScalar (native : Endian) (s : RState) (elemLen : Nat)
    (endianness : Endian) : ScalarResult × RState :=
  match readTypedArray native s (List.replicate elemLen 0) elemLen 1 endianness with
  | none => (.hang, s)
  | some (s', blockCount, buf) =>
      if blockCount = 0 then (.endOfInput, s')
      else (.val (elemValue native (buf.take elemLen)), s')

/-- The `part_001` endianness-fixed scalar wrapper `readXLE()`
(lines 195–201): calls `readX` with `endianness = 'LE'`. -/
def readScalarLE1 (native : Endian) (s : RState) (elemLen : Nat) :
    ScalarResult × RState :=
  readScalar native s elemLen .LE

/-- The `part_001` endianness-fixed scalar wrapper `readXBE()`
(lines 195–201): calls `readX` with `endianness = 'BE'`. -/
def readScalarBE1 (native : Endian) (s : RState) (elemLen : Nat) :
    ScalarResult × RState :=
  readScalar native s elemLen .BE

/-- Total length of the chunks the fill loop pops from the queue while it
still needs `need` more bytes: a fully consumed chunk contributes its length
and leaves `need - length` to fill; a chunk longer than the remaining need is
the last one popped and still contributes its full length (its unconsumed
tail is pushed back).  This is exactly the amount `BYTES_READ` grows by
during one `READ_BUFFER` call. -/
def deliveredBytes : List (List Nat) → Nat → Nat
  | _, 0 => 0
  | [], _ + 1 => 0
  | c :: rest, need + 1 =>
      if c.length ≤ need + 1 then
        c.length + deliveredBytes rest (need + 1 - c.length)
      else c.length

/-!
## Model of `src/proreader.js`

That revision keeps the arrived-but-unconsumed chunks in an explicit array
`this._data`, with flags `this._end` / `this._error` set by the `end` /
`error` handlers (each handler detaches the other, so at most one of the two
is ever set, and both compute `this._bytesRemain` as the sum of the buffered
chunk lengths).  `_dispatch` (lines 70–106) serves a pending `_getChunk`
promise: a buffered chunk first — decrementing `_bytesRemain` once end or
error has been observed — then `null` on `_end`, then rejection with the
stored error, and otherwise resumes the stream and waits.  States are
modelled after all source events have fired, so a wait with nothing buffered
lasts forever. -/

/-- State of the `proreader.js` `ProReader`: the `_data` chunk array, the
`_end` flag, the `_error` slot (errors identified by a `Nat`), and
`_bytesRemain` (`none` standing for `undefined`). -/
structure PState where
  data : List (List Nat)
  ended : Bool
  error : Option Nat
  bytesRemain : Option Int
deriving DecidableEq

/-- Outcome of one awaited `this._getChunk()` call in `proreader.js`: a
chunk, a `null` resolution, a rejection with the source's error, or a resumed
wait that (with no further source events) never resolves. -/
inductive POut where
  | chunk : List Nat → POut
  | eos : POut
  | fail : Nat → POut
  | waits : POut
deriving DecidableEq

/-- `this._getChunk()` via `_dispatch` (lines 55–61, 70–106): deliver the
front of `_data` first (adjusting `_bytesRemain` once `_end` or `_error` is
set), then `null` on `_end`, then reject with `_error`, else resume and
wait. -/
def pGetChunk (s : PState) : POut × PState :=
  match s.data with
  | c :: rest =>
      (.chunk c,
       { s with
           data := rest,
           bytesRemain :=
             if s.ended || s.error.isSome then
               s.bytesRemain.map (fun x => x - (c.length : Int))
             else s.bytesRemain })
  | [] =>
      if s.ended then (.eos, s)
      else
        match s.error with
        | some e => (.fail e, s)
        | none => (.waits, s)

/-- `this._ungetChunk(chunk)` (lines 63–68): unshift the chunk onto `_data`
and, once `_end` or `_error` has been observed, grow `_bytesRemain` by its
length. -/
def pUngetChunk (s : PState) (chunk : List Nat) : PState :=
  { s with
      data := chunk :: s.data,
      bytesRemain :=
        if s.ended || s.error.isSome then
          s.bytesRemain.map (fun x => x + (chunk.length : Int))
        else s.bytesRemain }

/-- Result of `this._fillBuffer` in `proreader.js`: the filled prefix and
final state, a rejection with the source error, or a fill that never
completes. -/
inductive PFillRes where
  | ok : List Nat → PState → PFillRes
  | fail : Nat → PState → PFillRes
  | stuck : PFillRes
deriving DecidableEq

/-- Loop of `this._fillBuffer(buffer)` (lines 108–121): identical to the
`part_001` fill loop but without block flooring (the byte `offset` itself is
returned) and over the `_data` queue.  Fuel-structured: every iteration
either consumes a `_data` entry or at least one needed byte, so
`destLen + |data| + 1` fuel is enough. -/
def pFillLoop : Nat → Nat → List Nat → PState → PFillRes
  | 0, _, _, _ => .stuck
  | fuel + 1, destLen, acc, s =>
      if acc.length < destLen then
        match pGetChunk s with
        | (.chunk c, s') =>
            let len := min (destLen - acc.length) c.length
            if len = c.length then
              pFillLoop fuel destLen (acc ++ c) s'
            else
              pFillLoop fuel destLen (acc ++ c.take len)
                (pUngetChunk s' (c.drop len))
        | (.eos, s') => .ok acc s'
        | (.fail e, s') => .fail e s'
        | (.waits, _) => .stuck
      else .ok acc s

/-- `this._fillBuffer(buffer)` of `proreader.js`. -/
def pFillBuffer (s : PState) (dest : List Nat) : PFillRes :=
  pFillLoop (dest.length + s.data.length + 1) dest.length [] s

/-- Result of `this._fillTypedArray`: the element count and final byte
region, a source-error rejection, or no completion. -/
inductive PTypedRes where
  | ok : Nat → List Nat → PState → PTypedRes
  | fail : Nat → PState → PTypedRes
  | stuck : PTypedRes
deriving DecidableEq

/-- `this._fillTypedArray(typedArray, endianness)` (lines 123–140): fill the
byte region, floor the byte length to whole `bpe`-byte elements, unget the
excess bytes when there are any, and byte-swap the filled elements when the
requested endianness differs from the native one. -/
def pFillTypedArray (native : Endian) (s : PState) (dest : List Nat)
    (bpe : Nat) (endianness : Endian) : PTypedRes :=
  match pFillBuffer s dest with
  | .stuck => .stuck
  | .fail e s' => .fail e s'
  | .ok acc s' =>
      let length := acc.length / bpe
      let excess := acc.drop (length * bpe)
      let s'' := if 0 < excess.length then pUngetChunk s' excess else s'
      let buf := acc ++ dest.drop acc.length
      let buf' :=
        if endianness ≠ native then
          swapGroups bpe (buf.take (length * bpe)) ++ buf.drop (length * bpe)
        else buf
      .ok length buf' s''

/-- Observable result of a `proreader.js` scalar read. -/
inductive PScalarRes where
  | val : Nat → PScalarRes
  | notEnough : PScalarRes
  | fail : Nat → PScalarRes
  | stuck : PScalarRes
deriving DecidableEq

/-- A `proreader.js` scalar read `readX(endianness)` (lines 195–202): fill a
fresh one-element typed array; a zero element count raises `NotEnoughError`,
otherwise the element value is returned. -/
def pReadScalar (native : Endian) (s : PState) (bpe : Nat)
    (endianness : Endian) : PScalarRes × PState :=
  match pFillTypedArray native s (List.replicate bpe 0) bpe endianness with
  | .stuck => (.stuck, s)
  | .fail e s' => (.fail e, s')
  | .ok length buf s' =>
      if length = 0 then (.notEnough, s')
      else (.val (elemValue native (buf.take bpe)), s')

/-- The `proreader.js` wrapper `readXLE(endianness)` (lines 204–206): calls
`readX` with `'LE'`. -/
def pReadScalarLE (native : Endian) (s : PState) (bpe : Nat) :
    PScalarRes × PState :=
  pReadScalar native s bpe .LE

/-- The `proreader.js` wrapper `readXBE(endianness)` (lines 208–210): as
written in the source it also calls `readX` with `'LE'`. -/
def pReadScalarBE (native : Endian) (s : PState) (bpe : Nat) :
    PScalarRes × PState :=
  pReadScalar native s bpe .LE

/-!
## Behaviour of the `part_001` chunk flow on well-formed reader states

"Clean" states are those with the constructor's listeners still attached and
`bytesUnread` undefined, i.e. the reader before end-of-input is observed.
On those the flow delivers the first nonempty buffered chunk. -/

theorem flowAux_deliver (q : List (List Nat)) (e : Bool) (br : Nat)
    (h : q.flatten ≠ []) :
    ∃ c q', c ≠ [] ∧
      flowAux q e true br none
        = (.chunk c, ⟨q', e, true, br + c.length, none⟩) ∧
      q.flatten = c ++ q'.flatten ∧
      (∀ n, 1 ≤ n →
        deliveredBytes q n
          = if c.length ≤ n then c.length + deliveredBytes q' (n - c.length)
            else c.length) := by
  induction q with
  | nil => simp at h
  | cons c rest ih =>
    by_cases hc : c = []
    · subst hc
      simp only [List.flatten_cons, List.nil_append] at h
      obtain ⟨c', q', hc', heq, hflat, hdel⟩ := ih h
      refine ⟨c', q', hc', ?_, ?_, ?_⟩
      · simpa [flowAux] using heq
      · simpa using hflat
      · intro n hn
        match n, hn with
        | m + 1, _ => simpa [deliveredBytes] using hdel (m + 1) (by omega)
    · refine ⟨c, rest, hc, ?_, by simp, ?_⟩
      · simp [flowAux, hc]
      · intro n hn
        match n, hn with
        | m + 1, _ => simp [deliveredBytes]

theorem flowAux_end (q : List (List Nat)) (br : Nat) (h : q.flatten = []) :
    flowAux q true true br none = (.endOfInput, ⟨[], true, false, br, some 0⟩) := by
  induction q with
  | nil => simp [flowAux]
  | cons c rest ih =>
    simp only [List.flatten_cons, List.append_eq_nil] at h
    obtain ⟨hc, hrest⟩ := h
    subst hc
    simpa [flowAux] using ih hrest

theorem deliveredBytes_of_flatten_nil (q : List (List Nat)) (need : Nat)
    (h : q.flatten = []) : deliveredBytes q need = 0 := by
  induction q generalizing need with
  | nil => cases need <;> simp [deliveredBytes]
  | cons c rest ih =>
    simp only [List.flatten_cons, List.append_eq_nil] at h
    obtain ⟨hc, hrest⟩ := h
    subst hc
    cases need with
    | zero => simp [deliveredBytes]
    | succ m => simpa [deliveredBytes] using ih (m + 1) hrest

theorem le_deliveredBytes (q : List (List Nat)) (need : Nat)
    (h : need ≤ q.flatten.length) : need ≤ deliveredBytes q need := by
  induction q generalizing need with
  | nil => simp at h; omega
  | cons c rest ih =>
    cases need with
    | zero => simp [deliveredBytes]
    | succ m =>
      simp only [List.flatten_cons, List.length_append] at h
      by_cases hc : c.length ≤ m + 1
      · have := ih (m + 1 - c.length) (by omega)
        simp only [deliveredBytes, hc, if_pos]
        omega
      · simp only [deliveredBytes, hc, if_neg, not_false_iff]
        omega

theorem readChunk_clean (q : List (List Nat)) (e : Bool) (br : Nat) :
    readChunk ⟨q, e, true, br, none⟩ = flowAux q e true br none := by
  simp [readChunk]

/-- Main loop invariant for `READ_BUFFER` starting from a clean state: with
`need = destLen - acc.length` further bytes wanted, the loop appends the next
`need` queued bytes (or all of them if fewer remain and the stream has
ended), `BYTES_READ` grows by the full length of every popped chunk, and the
final state is clean again with the unconsumed bytes at the front of the
queue — unless the queue ran dry, in which case end-of-input was observed:
listeners detached and `BYTES_UNREAD = 0`. -/
theorem readBufLoop_spec (fuel : Nat) :
    ∀ (q : List (List Nat)) (e : Bool) (br : Nat) (acc : List Nat)
      (destLen : Nat),
      destLen - acc.length < fuel →
      (e = true ∨ destLen - acc.length ≤ q.flatten.length) →
      ∃ s' : RState,
        readBufLoop fuel destLen acc ⟨q, e, true, br, none⟩
          = some (s', acc ++ q.flatten.take (destLen - acc.length)) ∧
        s'.bytesRead = br + deliveredBytes q (destLen - acc.length) ∧
        s'.ended = e ∧
        (if destLen - acc.length ≤ q.flatten.length then
           s'.queue.flatten = q.flatten.drop (destLen - acc.length) ∧
           s'.attached = true ∧ s'.bytesUnread = none
         else
           s'.queue = [] ∧ s'.attached = false ∧ s'.bytesUnread = some 0) := by
  induction fuel with
  | zero => intro q e br acc destLen hfuel _; omega
  | succ fuel ih =>
    intro q e br acc destLen hfuel hok
    by_cases hneed : destLen - acc.length = 0
    · refine ⟨⟨q, e, true, br, none⟩, ?_, ?_, rfl, ?_⟩
      · have : ¬ acc.length < destLen := by omega
        simp [readBufLoop, this, hneed]
      · simp [hneed, deliveredBytes]
      · simp [hneed]
    · have hlt : acc.length < destLen := by omega
      by_cases hq : q.flatten = []
      · have he : e = true := by
          rcases hok with he | hle
          · exact he
          · exfalso; rw [hq] at hle; simp at hle; omega
        subst he
        have hnotle : ¬ destLen - acc.length ≤ q.flatten.length := by
          rw [hq]; simp only [List.length_nil]; omega
        refine ⟨⟨[], true, false, br, some 0⟩, ?_, ?_, rfl, ?_⟩
        · simp [readBufLoop, hlt, readChunk_clean, flowAux_end q br hq, hq]
        · simp [deliveredBytes_of_flatten_nil q _ hq]
        · rw [if_neg hnotle]
          exact ⟨rfl, rfl, rfl⟩
      · obtain ⟨c, q', hc, heq, hflat, hdel⟩ := flowAux_deliver q e br hq
        have hclen : 1 ≤ c.length := List.length_pos.mpr hc
        by_cases hfull : c.length ≤ destLen - acc.length
        · -- chunk fully consumed, loop continues
          have hrec :
              readBufLoop (fuel + 1) destLen acc ⟨q, e, true, br, none⟩
                = readBufLoop fuel destLen (acc ++ c)
                    ⟨q', e, true, br + c.length, none⟩ := by
            have hmin : min (destLen - acc.length) c.length = c.length := by
              omega
            simp [readBufLoop, hlt, readChunk_clean, heq, hmin]
          have hok' : e = true ∨
              destLen - (acc ++ c).length ≤ q'.flatten.length := by
            rcases hok with he | hle
            · exact Or.inl he
            · right
              rw [hflat] at hle
              simp only [List.length_append] at hle ⊢
              omega
          obtain ⟨s', hres, hbr, hend, hrest⟩ :=
            ih q' e (br + c.length) (acc ++ c) destLen
              (by simp only [List.length_append]; omega) hok'
          refine ⟨s', ?_, ?_, hend, ?_⟩
          · rw [hrec, hres, hflat]
            have : (c ++ q'.flatten).take (destLen - acc.length)
                = c ++ q'.flatten.take (destLen - (acc ++ c).length) := by
              rw [List.take_append_eq_append_take,
                  List.take_of_length_le hfull]
              simp only [List.length_append]
              congr 2
              omega
            rw [this, List.append_assoc]
          · rw [hbr, hdel (destLen - acc.length) (by omega), if_pos hfull]
            simp only [List.length_append]
            have : destLen - (acc.length + c.length)
                = destLen - acc.length - c.length := by omega
            rw [this]
            omega
          · have hiff : (destLen - acc.length ≤ q.flatten.length)
                ↔ (destLen - (acc ++ c).length ≤ q'.flatten.length) := by
              rw [hflat]
              simp only [List.length_append]
              constructor <;> intro <;> omega
            by_cases hcase : destLen - acc.length ≤ q.flatten.length
            · rw [if_pos hcase]
              rw [if_pos (hiff.mp hcase)] at hrest
              obtain ⟨hflat', hatt, hbu⟩ := hrest
              refine ⟨?_, hatt, hbu⟩
              rw [hflat', hflat, List.drop_append_eq_append_drop,
                  List.drop_eq_nil_of_le hfull, List.nil_append]
              simp only [List.length_append]
              congr 1
              omega
            · rw [if_neg hcase]
              rw [if_neg (fun h => hcase (hiff.mpr h))] at hrest
              exact hrest
        · -- chunk longer than needed: copy a prefix, push back the tail
          have hneed1 : 1 ≤ destLen - acc.length := by omega
          have hmin : min (destLen - acc.length) c.length
              = destLen - acc.length := by omega
          have hdropne : ¬ (c.drop (destLen - acc.length)).isEmpty := by
            simp only [List.isEmpty_iff, ← List.length_eq_zero,
              List.length_drop]
            omega
          have hne' : destLen - acc.length ≠ c.length := by omega
          have hrec :
              readBufLoop (fuel + 1) destLen acc ⟨q, e, true, br, none⟩
                = readBufLoop fuel destLen
                    (acc ++ c.take (destLen - acc.length))
                    ⟨c.drop (destLen - acc.length) :: q', e, true,
                      br + c.length, none⟩ := by
            simp [readBufLoop, hlt, readChunk_clean, heq, hmin, hne',
              unreadChunk, hdropne]
          have hacclen : (acc ++ c.take (destLen - acc.length)).length
              = destLen := by
            simp only [List.length_append, List.length_take]
            omega
          obtain ⟨s', hres, hbr, hend, hrest⟩ :=
            ih (c.drop (destLen - acc.length) :: q') e (br + c.length)
              (acc ++ c.take (destLen - acc.length)) destLen
              (by omega) (by right; omega)
          rw [hacclen] at hres hbr hrest
          simp only [Nat.sub_self, List.take_zero, List.append_nil,
            Nat.zero_le, if_pos, List.drop_zero, deliveredBytes,
            Nat.add_zero] at hres hbr hrest
          refine ⟨s', ?_, ?_, hend, ?_⟩
          · rw [hrec, hres, hflat, List.take_append_eq_append_take]
            have : q'.flatten.take (destLen - acc.length - c.length)
                = [] := by
              have : destLen - acc.length - c.length = 0 := by omega
              rw [this, List.take_zero]
            rw [this, List.append_nil]
          · rw [hbr, hdel (destLen - acc.length) hneed1, if_neg hfull]
          · have hcase : destLen - acc.length ≤ q.flatten.length := by
              rw [hflat]; simp only [List.length_append]; omega
            rw [if_pos hcase]
            obtain ⟨hflat', hatt, hbu⟩ := hrest
            refine ⟨?_, hatt, hbu⟩
            rw [hflat', hflat, List.drop_append_eq_append_drop]
            simp only [List.flatten_cons]
            have : q'.flatten.drop (destLen - acc.length - c.length)
                = q'.flatten := by
              have : destLen - acc.length - c.length = 0 := by omega
              rw [this, List.drop_zero]
            rw [this]

/-- Pushing a chunk back concatenates it in front of the buffered bytes, for
every state `UNREAD_CHUNK` is reached in along the clean fill path: either
end-of-input was not observed (`bytesUnread` undefined, unshift branch) or it
was just observed with a drained queue (`bytesUnread = 0`, stream-replacement
branch). -/
theorem unreadChunk_flatten (s : RState) (c : List Nat)
    (h : s.bytesUnread = none ∨ (s.bytesUnread = some 0 ∧ s.queue = [])) :
    (unreadChunk s c).queue.flatten = c ++ s.queue.flatten := by
  by_cases hc : c.isEmpty
  · have : c = [] := List.isEmpty_iff.mp hc
    subst this
    simp [unreadChunk]
  · rcases h with hbu | ⟨hbu, hq⟩
    · have hne : s.bytesUnread ≠ some 0 := by rw [hbu]; simp
      simp [unreadChunk, hc, hne]
    · have hne : ¬ s.bytesUnread ≠ some 0 := by rw [hbu]; simp
      simp [unreadChunk, hc, hne, hq]

theorem unreadChunk_bytesRead (s : RState) (c : List Nat) :
    (unreadChunk s c).bytesRead = s.bytesRead := by
  unfold unreadChunk
  by_cases hc : c.isEmpty
  · simp [hc]
  · by_cases hb : s.bytesUnread ≠ some 0 <;> simp [hc, hb]

theorem drop_take_append_drop (B : List Nat) (k off : Nat) (h : k ≤ off) :
    (B.take off).drop k ++ B.drop off = B.drop k := by
  conv_rhs => rw [← List.take_append_drop (off - k) (B.drop k)]
  congr 1
  · rw [List.drop_take]
  · rw [List.drop_drop]
    congr 1
    omega

/-- `READ_BUFFER` on a clean reader state (listeners attached, `bytesUnread`
undefined): provided the stream has ended or holds enough bytes, the call
completes; with `B` the buffered bytes and `off = min dest.length B.length`
the copied byte count, it returns `off / blockLength` whole blocks, the
destination holds the first `off` buffered bytes, the bytes from
`blockCount * blockLength` on are back at the front of the queue, and
`BYTES_READ` grew by the full length of every chunk popped. -/
theorem readBuffer_clean_spec (q : List (List Nat)) (e : Bool) (br : Nat)
    (dest : List Nat) (bl : Nat)
    (hok : e = true ∨ dest.length ≤ q.flatten.length) :
    ∃ s' : RState,
      readBuffer ⟨q, e, true, br, none⟩ dest bl
        = some (s', min dest.length q.flatten.length / bl,
            q.flatten.take dest.length
              ++ dest.drop (min dest.length q.flatten.length)) ∧
      s'.queue.flatten
        = q.flatten.drop (min dest.length q.flatten.length / bl * bl) ∧
      s'.bytesRead = br + deliveredBytes q dest.length := by
  obtain ⟨s₁, hres, hbr, hend, hrest⟩ :=
    readBufLoop_spec (dest.length + 1) q e br [] dest.length
      (by simp)
      (by rcases hok with h | h
          · exact Or.inl h
          · right; simpa using h)
  simp only [List.length_nil, Nat.sub_zero, List.nil_append] at hres hbr hrest
  have hofflen : (q.flatten.take dest.length).length
      = min dest.length q.flatten.length := List.length_take _ _
  have hk : min dest.length q.flatten.length / bl * bl
      ≤ min dest.length q.flatten.length := Nat.div_mul_le_self _ _
  have hflat₂ :
      (unreadChunk s₁
          ((q.flatten.take dest.length).drop
            (min dest.length q.flatten.length / bl * bl))).queue.flatten
        = q.flatten.drop (min dest.length q.flatten.length / bl * bl) := by
    have hpre : s₁.bytesUnread = none
        ∨ (s₁.bytesUnread = some 0 ∧ s₁.queue = []) := by
      by_cases hcase : dest.length ≤ q.flatten.length
      · rw [if_pos hcase] at hrest
        exact Or.inl hrest.2.2
      · rw [if_neg hcase] at hrest
        exact Or.inr ⟨hrest.2.2, hrest.1⟩
    rw [unreadChunk_flatten s₁ _ hpre]
    have hs₁flat : s₁.queue.flatten
        = q.flatten.drop (min dest.length q.flatten.length) := by
      by_cases hcase : dest.length ≤ q.flatten.length
      · rw [if_pos hcase] at hrest
        rw [hrest.1]
        congr 1
        omega
      · rw [if_neg hcase] at hrest
        rw [hrest.1]
        simp only [List.flatten_nil]
        rw [Nat.min_eq_right (by omega), List.drop_length]
    rw [hs₁flat]
    have htake : q.flatten.take dest.length
        = q.flatten.take (min dest.length q.flatten.length) := by
      rw [List.take_eq_take]
      omega
    rw [htake]
    exact drop_take_append_drop _ _ _ hk
  refine ⟨_, ?_, hflat₂, ?_⟩
  · simp only [readBuffer, hres, hofflen]
  · rw [unreadChunk_bytesRead]
    exact hbr

/-- C1. On a clean ended reader, `READ_BUFFER` returns
`blockCount = ⌊offset / blockLength⌋` for `offset` the number of bytes it
copied (everything available, capped at the destination size), and the
bytes copied beyond the last whole block are back at the front of the queue,
followed by the untouched remainder of the buffered bytes — nothing is
dropped. -/
theorem c1_read_buffer_floors_blocks_and_pushes_back_tail
    (q : List (List Nat)) (br : Nat) (dest : List Nat) (bl : Nat)
    (_hbl : 1 ≤ bl) :
    ∃ s' : RState,
      readBuffer ⟨q, true, true, br, none⟩ dest bl
        = some (s', min dest.length q.flatten.length / bl,
            q.flatten.take dest.length
              ++ dest.drop (min dest.length q.flatten.length)) ∧
      s'.queue.flatten
        = q.flatten.drop (min dest.length q.flatten.length / bl * bl) := by
  obtain ⟨s', h1, h2, _⟩ :=
    readBuffer_clean_spec q true br dest bl (Or.inl rfl)
  exact ⟨s', h1, h2⟩

/-- Witness for C1: queue `[[1,2,3]]`, a 4-byte destination, block length 2:
one whole block is returned and the third byte is pushed back. -/
theorem c1_witness :
    1 ≤ 2 ∧
    ∃ s' : RState,
      readBuffer ⟨[[1, 2, 3]], true, true, 0, none⟩ [0, 0, 0, 0] 2
        = some (s',
            min [0, 0, 0, 0].length [[1, 2, 3]].flatten.length / 2,
            [[1, 2, 3]].flatten.take [0, 0, 0, 0].length
              ++ [0, 0, 0, 0].drop
                  (min [0, 0, 0, 0].length [[1, 2, 3]].flatten.length)) ∧
      s'.queue.flatten
        = [[1, 2, 3]].flatten.drop
            (min [0, 0, 0, 0].length [[1, 2, 3]].flatten.length / 2 * 2) :=
  ⟨by decide,
   c1_read_buffer_floors_blocks_and_pushes_back_tail [[1, 2, 3]] 0
     [0, 0, 0, 0] 2 (by decide)⟩

/-- C2 (code divergence). In `src/reader.js` a `read` with `allowPart =
false` that achieves `blockCount * blockLength` less than the container
length throws `EndOfInput` carrying the partially filled container and the
achieved block count.  In `src/unnamed/part_001` the same call resolves
`undefined` instead: `await Buffer.isBuffer(container) ? … : …` leaves
`blockCount` an unawaited Promise, whose `NaN` product compares false.
Here a 2-byte read against a source that delivers one byte `[9]` and ends:
the `reader.js` entry fails with the container `[9, 0]` and block count 1,
the `part_001` entry succeeds. -/
theorem c2_reader_js_fails_part_001_succeeds :
    readEntryReaderJs ⟨[[9]], true, true, 0, none⟩ [0, 0] 1 false
      = (.endOfInput [9, 0] 1, ⟨[], true, false, 1, some 0⟩, [9, 0]) ∧
    readEntryPart001 ⟨[[9]], true, true, 0, none⟩ [0, 0] 1 false
      = (.success, ⟨[], true, false, 1, some 0⟩, [9, 0]) := by decide

/-- C3 (code divergence). Before end-of-input a push-back round-trips: the
unread bytes are the very next chunk delivered, ahead of the queued chunks.
But once end-of-input has been observed (`bytesUnread = 0`), `UNREAD_CHUNK`
stores the bytes in a replacement stream that has no `data`/`end` listeners,
so the next `READ_CHUNK` resumes it, the emitted chunk is discarded, and the
promise never resolves: the pushed-back bytes `[7, 8]` are never delivered
to any subsequent request. -/
theorem c3_post_end_pushback_never_redelivered :
    readChunk (unreadChunk ⟨[[1], [2]], false, true, 0, none⟩ [7, 8])
      = (.chunk [7, 8], ⟨[[1], [2]], false, true, 2, none⟩) ∧
    unreadChunk ⟨[], true, false, 5, some 0⟩ [7, 8]
      = ⟨[[7, 8]], true, false, 5, some 2⟩ ∧
    readChunk ⟨[[7, 8]], true, false, 5, some 2⟩
      = (.hang, ⟨[], true, false, 5, some 2⟩) := by decide

/-- C4 (code divergence). The first push-back after end-of-input (queue
drained, `BYTES_UNREAD === 0`) does raise `bytesUnread` by the pushed
length, but a push-back onto a state with `bytesUnread = 1 ≠ 0` takes the
unshift branch of `UNREAD_CHUNK`, which never touches `BYTES_UNREAD`: after
pushing one more byte `bytesUnread` is still 1, not 2, so `bytesUnread` does
not increase by the pushed length on each post-end push-back. -/
theorem c4_post_end_unshift_skips_bytesUnread :
    unreadChunk ⟨[], true, false, 1, some 0⟩ [9]
      = ⟨[[9]], true, false, 1, some 1⟩ ∧
    unreadChunk ⟨[[7]], true, false, 1, some 1⟩ [9]
      = ⟨[[9], [7]], true, false, 1, some 1⟩ ∧
    (unreadChunk ⟨[[7]], true, false, 1, some 1⟩ [9]).bytesUnread
      ≠ some (1 + 1) := by decide

/-- C5 (code divergence). In `src/proreader.js` both `readUInt16LE` and
`readUInt16BE` pass `'LE'` to `readUInt16`, so on the buffered bytes
`[1, 2]` both return 513 = 0x0201 (whatever the native byte order is),
instead of diverging; big-endian decoding of `[1, 2]` would be 258 =
0x0102, which is exactly what the corrected wrappers of
`src/unnamed/part_001` produce. -/
theorem c5_proreader_BE_wrapper_requests_LE :
    pReadScalarBE .LE ⟨[[1, 2]], true, none, some 2⟩ 2
      = (.val 513, ⟨[], true, none, some 0⟩) ∧
    pReadScalarLE .LE ⟨[[1, 2]], true, none, some 2⟩ 2
      = (.val 513, ⟨[], true, none, some 0⟩) ∧
    pReadScalarBE .BE ⟨[[1, 2]], true, none, some 2⟩ 2
      = (.val 513, ⟨[], true, none, some 0⟩) ∧
    pReadScalarLE .BE ⟨[[1, 2]], true, none, some 2⟩ 2
      = (.val 513, ⟨[], true, none, some 0⟩) ∧
    readScalarLE1 .LE ⟨[[1, 2]], true, true, 0, none⟩ 2
      = (.val 513, ⟨[], true, true, 2, none⟩) ∧
    readScalarBE1 .LE ⟨[[1, 2]], true, true, 0, none⟩ 2
      = (.val 258, ⟨[], true, true, 2, none⟩) ∧
    (513 : Nat) ≠ 258 := by decide

/-- C6 (counterexample). With the source chunks
`[1,0,0,0]`, `[2,0,0]`, `[0,3]`, `[0,0,0,4]`, `[0,0]` already written and
the stream ended, filling a 2-element 4-byte region with big-endian order
consumes the bytes `1,0,0,0,2,0,0,0`: the second element decodes to
0x02000000 on either native byte order, not the 0x02000003 the claim
states. -/
theorem c6_counterexample_second_element :
    readTypedArray .LE
        ⟨[[1, 0, 0, 0], [2, 0, 0], [0, 3], [0, 0, 0, 4], [0, 0]],
          true, true, 0, none⟩
        (List.replicate 8 0) 4 1 .BE
      = some (⟨[[3], [0, 0, 0, 4], [0, 0]], true, true, 9, none⟩, 2,
              [0, 0, 0, 1, 0, 0, 0, 2]) ∧
    readTypedArray .BE
        ⟨[[1, 0, 0, 0], [2, 0, 0], [0, 3], [0, 0, 0, 4], [0, 0]],
          true, true, 0, none⟩
        (List.replicate 8 0) 4 1 .BE
      = some (⟨[[3], [0, 0, 0, 4], [0, 0]], true, true, 9, none⟩, 2,
              [1, 0, 0, 0, 2, 0, 0, 0]) ∧
    elemValue .LE (elemBytes [0, 0, 0, 1, 0, 0, 0, 2] 4 1) ≠ 0x02000003 ∧
    elemValue .BE (elemBytes [1, 0, 0, 0, 2, 0, 0, 0] 4 1) ≠ 0x02000003 := by
  decide

/-- C6 (amended). The same scenario actually yields the elements
`[0x01000000, 0x02000000]`, leaves the 7 bytes `[3]`, `[0,0,0,4]`, `[0,0]`
queued with `bytesUnread` still undefined (end-of-input is not yet
observed), and once the remaining bytes are drained and end is observed
`bytesUnread` becomes 0, the byte count then remaining. -/
theorem c6_amended_scenario :
    readTypedArray .LE
        ⟨[[1, 0, 0, 0], [2, 0, 0], [0, 3], [0, 0, 0, 4], [0, 0]],
          true, true, 0, none⟩
        (List.replicate 8 0) 4 1 .BE
      = some (⟨[[3], [0, 0, 0, 4], [0, 0]], true, true, 9, none⟩, 2,
              [0, 0, 0, 1, 0, 0, 0, 2]) ∧
    elemValue .LE (elemBytes [0, 0, 0, 1, 0, 0, 0, 2] 4 0) = 0x01000000 ∧
    elemValue .LE (elemBytes [0, 0, 0, 1, 0, 0, 0, 2] 4 1) = 0x02000000 ∧
    elemValue .BE (elemBytes [1, 0, 0, 0, 2, 0, 0, 0] 4 0) = 0x01000000 ∧
    elemValue .BE (elemBytes [1, 0, 0, 0, 2, 0, 0, 0] 4 1) = 0x02000000 ∧
    ([[3], [0, 0, 0, 4], [0, 0]] : List (List Nat)).flatten.length = 7 ∧
    readBuffer ⟨[[3], [0, 0, 0, 4], [0, 0]], true, true, 9, none⟩
        (List.replicate 7 0) 1
      = some (⟨[], true, true, 16, none⟩, 7, [3, 0, 0, 0, 4, 0, 0]) ∧
    readChunk ⟨[], true, true, 16, none⟩
      = (.endOfInput, ⟨[], true, false, 16, some 0⟩) := by decide

/-- C7 (counterexample). Source writes total 2 bytes `[5, 6]`, a 1-byte
buffer is read: the buffer is filled, but `BYTES_READ` grows by 2 — the
whole delivered chunk, including the pushed-back byte `[6]` — not by the
buffer length 1. -/
theorem c7_counterexample_bytesRead_overcount :
    readBuffer ⟨[[5, 6]], false, true, 0, none⟩ [0] 1
      = some (⟨[[6]], false, true, 2, none⟩, 1, [5]) ∧
    (2 : Nat) ≠ 0 + [0].length := by decide

/-- C7 (amended). Whenever the source writes hold at least `dest.length`
bytes, `read(buffer)` (block length 1) fills the buffer completely with the
next buffered bytes and leaves the rest at the front of the queue, and
`bytesRead` grows by the total length of the chunks delivered during the
call — at least `buffer.length`, and more than that exactly when the final
chunk straddles the request boundary, since its pushed-back tail is counted
on delivery and counted again when redelivered later. -/
theorem c7_amended_full_fill_bytesRead
    (q : List (List Nat)) (e : Bool) (br : Nat) (dest : List Nat)
    (hlen : dest.length ≤ q.flatten.length) :
    ∃ s' : RState,
      readBuffer ⟨q, e, true, br, none⟩ dest 1
        = some (s', dest.length, q.flatten.take dest.length) ∧
      s'.queue.flatten = q.flatten.drop dest.length ∧
      s'.bytesRead = br + deliveredBytes q dest.length ∧
      dest.length ≤ deliveredBytes q dest.length := by
  obtain ⟨s', h1, h2, h3⟩ :=
    readBuffer_clean_spec q e br dest 1 (Or.inr hlen)
  rw [Nat.min_eq_left hlen] at h1 h2
  rw [Nat.div_one] at h1 h2
  rw [List.drop_length, List.append_nil] at h1
  rw [Nat.mul_one] at h2
  exact ⟨s', h1, h2, h3, le_deliveredBytes q dest.length hlen⟩

/-- Witness for C7's amended claim: source chunks `[[5, 6]]`, 1-byte
destination. -/
theorem c7_amended_witness :
    ([0] : List Nat).length ≤ ([[5, 6]] : List (List Nat)).flatten.length ∧
    ∃ s' : RState,
      readBuffer ⟨[[5, 6]], false, true, 0, none⟩ [0] 1
        = some (s', [0].length, [[5, 6]].flatten.take [0].length) ∧
      s'.queue.flatten = [[5, 6]].flatten.drop [0].length ∧
      s'.bytesRead = 0 + deliveredBytes [[5, 6]] [0].length ∧
      [0].length ≤ deliveredBytes [[5, 6]] [0].length :=
  ⟨by decide,
   c7_amended_full_fill_bytesRead [[5, 6]] false 0 [0] (by decide)⟩

/-- C8 (counterexample). In `proreader.js`, after the source has errored
(error 7 stored, one chunk `[1]` still buffered), the next `_getChunk`
still delivers the buffered chunk, and once the buffer is drained every
subsequent `_getChunk` rejects with the stored error again — the final
state is a fixpoint, so the error is replayed on every later request, not
propagated exactly once. -/
theorem c8_counterexample_error_replayed :
    pGetChunk ⟨[[1]], false, some 7, some 1⟩
      = (.chunk [1], ⟨[], false, some 7, some 0⟩) ∧
    pGetChunk ⟨[], false, some 7, some 0⟩
      = (.fail 7, ⟨[], false, some 7, some 0⟩) := by decide

/-- C8 (amended). Once the source has errored and the buffered chunks are
drained, every chunk request rejects with the stored source error and
leaves the state unchanged: the error is replayed to each subsequent
request (never retried against the source, which has been detached). -/
theorem c8_amended_error_replay (s : PState) (e : Nat)
    (he : s.error = some e) (hend : s.ended = false) (hdata : s.data = []) :
    pGetChunk s = (.fail e, s) := by
  simp [pGetChunk, hdata, hend, he]

/-- Witness for C8's amended claim at the drained errored state. -/
theorem c8_amended_witness :
    (⟨[], false, some 7, some 0⟩ : PState).error = some 7 ∧
    (⟨[], false, some 7, some 0⟩ : PState).ended = false ∧
    (⟨[], false, some 7, some 0⟩ : PState).data = [] ∧
    pGetChunk ⟨[], false, some 7, some 0⟩
      = (.fail 7, ⟨[], false, some 7, some 0⟩) :=
  ⟨rfl, rfl, rfl,
   c8_amended_error_replay ⟨[], false, some 7, some 0⟩ 7 rfl rfl rfl⟩

/-- C9 (code divergence). A `readUInt16` against a source that delivered
one byte `[7]` and ended fails with `EndOfInput` and pushes the consumed
byte back onto the front of the queue — but the push-back lives in a
replacement stream with no listeners, so the immediately following read's
chunk request never resolves: the byte is never received again. -/
theorem c9_failed_scalar_read_then_hang :
    readScalar .LE ⟨[[7]], true, true, 0, none⟩ 2 .LE
      = (.endOfInput, ⟨[[7]], true, false, 1, some 1⟩) ∧
    readBuffer ⟨[[7]], true, false, 1, some 1⟩ [0] 1 = none := by decide

/-- C10. A zero-length chunk is invisible: `onData` returns without
resolving the pending request or touching `bytesRead`/`bytesUnread`, the
stream flow skips it, and a zero-length `UNREAD_CHUNK` changes nothing. -/
theorem c10_zero_length_chunks_are_noops :
    (∀ s : RState, onData s [] = (s, none)) ∧
    (∀ s : RState, unreadChunk s [] = s) ∧
    (∀ (q : List (List Nat)) (e a : Bool) (br : Nat) (bu : Option Int),
      flowAux ([] :: q) e a br bu = flowAux q e a br bu) :=
  ⟨fun _ => rfl, fun _ => rfl, fun _ _ _ _ _ => rfl⟩

